import Mathlib

/-!
Shallow embedding of `src/src/buffer/out/Row.cpp`: the `ROW` constructor,
`ROW::Reset`, `ROW::ClearColumn`, `ROW::WriteCells` and the splice routine
`ROW::Replace(x, width, chars)`, together with the helpers that are declared
in `Row.hpp` (not part of the sources) and are therefore modelled from the
specification.

Modelling conventions:
* The character buffer `_chars` and the offset array `_indices` are modelled as
  total functions `Nat → Char` / `Nat → Nat` together with the explicit sizes
  `charsCapacity` and `indicesCount`; only arguments below those sizes are
  meaningful (reads beyond them would be out-of-bounds in the source).
* `uint16_t` / `size_t` arithmetic is modelled as exact integer arithmetic
  (`Nat` / `Int`).  This is faithful to the machine for every execution whose
  offsets stay below 2^16, which is the source's own operating assumption
  (`gsl::narrow_cast<uint16_t>` on all column/offset values).  The single
  wrapping subtraction `diff = newRhs - ch1` is modelled as the signed integer
  it represents; the `*it += diff` update is modelled with `Int.toNat`, whose
  clamping is only reachable on index entries that the source immediately
  overwrites in its final rewrite loops.
* `std::copy_n` of the overlapping in-place tail shift is modelled with move
  semantics (all reads taken from the pre-state), matching the `memmove`
  lowering used for trivially copyable element types.
* The attribute run store `til::rle` is an external collaborator; it is
  modelled by its per-column meaning, a function `Nat → Nat` over columns,
  with `replace` acting on a half-open column range as stated in the spec.
  Attribute values themselves are opaque and represented by `Nat`.
-/

/-- `LineRendition` (from the headers): a rendering hint stored on the row. -/
inductive LineRendition where
  | singleWidth
  | doubleWidth
  | doubleHeightTop
  | doubleHeightBottom
deriving DecidableEq

/-- `DbcsAttribute` of an incoming cell: narrow glyph, leading half of a wide
glyph, or trailing half of a wide glyph. -/
inductive DbcsKind where
  | single
  | leading
  | trailing
deriving DecidableEq

/-- `TextAttributeBehavior` of an incoming cell: `stored` writes text and the
cell's attribute, `storedOnly` says only an attribute is stored in the
iterator, `current` writes text but keeps the row's current attribute. -/
inductive TextAttrBehavior where
  | stored
  | storedOnly
  | current
deriving DecidableEq

/-- One incoming cell produced by the `OutputCellIterator`: its text, its
double-byte classification, its attribute and its attribute behavior. -/
structure Cell where
  chars : List Char
  dbcs : DbcsKind
  attr : Nat
  behavior : TextAttrBehavior
deriving DecidableEq

/-- The state of one `ROW`: the character store with its capacity, the
column→offset index with the column count, the attribute store, and the
line-level flags.  The used length of the character store is the sentinel
entry `indices indicesCount`, exactly as in the source. -/
structure RowState where
  chars : Nat → Char
  charsCapacity : Nat
  indices : Nat → Nat
  indicesCount : Nat
  attr : Nat → Nat
  lineRendition : LineRendition
  wrapForced : Bool
  doubleBytePadded : Bool

/-- Placeholder for character positions the source never initialises. -/
def uninitChar : Char := Char.ofNat 0

/-- The `ROW` constructor (Row.cpp lines 20-37): one space per column,
`index[c] = c` for all `c ≤ rowWidth`, one attribute run over the whole row,
all flags cleared. -/
def mkRow (rowWidth : Nat) (fillAttr : Nat) : RowState where
  chars := fun i => if i < rowWidth then ' ' else uninitChar
  charsCapacity := rowWidth
  indices := fun j => j
  indicesCount := rowWidth
  attr := fun _ => fillAttr
  lineRendition := LineRendition.singleWidth
  wrapForced := false
  doubleBytePadded := false

/-- `ROW::Reset` (Row.cpp lines 45-56): restore the freshly constructed state
in place; the character capacity is reused unchanged. -/
def Reset (s : RowState) (fillAttr : Nat) : RowState :=
  { s with
    chars := fun i => if i < s.indicesCount then ' ' else s.chars i
    indices := fun j => j
    attr := fun _ => fillAttr
    lineRendition := LineRendition.singleWidth
    wrapForced := false
    doubleBytePadded := false }

/-- The backward walk of `ROW::Replace` (Row.cpp line 181):
`for (; old0 != 0 && _indices[old0 - 1] == ch0; --old0)`. -/
def backScan (idx : Nat → Nat) (ch0 : Nat) : Nat → Nat
  | 0 => 0
  | j + 1 => if idx j = ch0 then backScan idx ch0 j else j + 1

/-- The forward walk of `ROW::Replace` (Row.cpp line 185):
`for (; (ch1 = _indices[old1]) == ch0; ++old1)`.  The walk is fuelled with
exactly the number of in-bounds index slots left; exhausting the fuel
corresponds to the source reading past `_indices[_indicesCount]`
(out of bounds), modelled by the garbage result `(j, 0)`. -/
def fwdScan (idx : Nat → Nat) (ch0 : Nat) : Nat → Nat → Nat × Nat
  | 0, j => (j, 0)
  | fuel + 1, j => if idx j = ch0 then fwdScan idx ch0 fuel (j + 1) else (j, idx j)

/-- All intermediate quantities computed by `ROW::Replace`
(Row.cpp lines 174-198), named exactly as in the source. -/
structure SpliceCtx where
  new0 : Nat
  new1 : Nat
  ch0 : Nat
  old0 : Nat
  old1 : Nat
  ch1 : Nat
  leadingSpaces : Nat
  trailingSpaces : Nat
  insertedChars : Nat
  newRhs : Nat
  diff : Int
  currentLength : Nat
  newLength : Nat
  newCapacity : Nat

/-- Computes the intermediate quantities of `ROW::Replace`
(Row.cpp lines 174-198, 206). -/
def spliceCtx (s : RowState) (x width : Nat) (chars : List Char) : SpliceCtx :=
  let new0 := min x s.indicesCount
  let new1 := min (new0 + width) s.indicesCount
  let ch0 := s.indices new0
  let old0 := backScan s.indices ch0 new0
  let fs := fwdScan s.indices ch0 (s.indicesCount + 1 - new1) new1
  let old1 := fs.1
  let ch1 := fs.2
  let leadingSpaces := new0 - old0
  let trailingSpaces := old1 - new1
  let insertedChars := chars.length + leadingSpaces + trailingSpaces
  let newRhs := insertedChars + ch0
  let diff : Int := (newRhs : Int) - (ch1 : Int)
  let currentLength := s.indices s.indicesCount
  let newLength := ((currentLength : Int) + diff).toNat
  { new0 := new0, new1 := new1, ch0 := ch0, old0 := old0, old1 := old1, ch1 := ch1
    leadingSpaces := leadingSpaces, trailingSpaces := trailingSpaces
    insertedChars := insertedChars, newRhs := newRhs, diff := diff
    currentLength := currentLength, newLength := newLength
    newCapacity := max newLength (s.charsCapacity + s.charsCapacity / 2) }

/-- `ROW::Replace(size_t x, size_t width, const std::wstring_view& chars)`
(Row.cpp lines 172-250), the splice routine.  Step by step:
* when `diff ≠ 0`, shift the unaffected tail `[ch1, currentLength)` to
  `newRhs` in place if the new length fits the capacity, otherwise reallocate
  to `max(newLength, capacity + capacity/2)` copying the head `[0, ch0)` and
  the shifted tail (lines 195-219);
* when `diff ≠ 0`, add `diff` to every index entry at or beyond `new1`,
  including the sentinel (lines 221-224);
* fill the gap at `ch0` with `leadingSpaces` spaces, the replacement text and
  `trailingSpaces` spaces (lines 227-232);
* rewrite the index entries of `[old0, old1)` (lines 234-249).  Note the
  source stores the COLUMN number `col` into the slots of `[old0, new0)` and
  `[new1, old1)`, and the saved column number `c = new0` into the slots of
  `[new0, new1)` — not character offsets. -/
def Replace (s : RowState) (x width : Nat) (chars : List Char) : RowState :=
  let c := spliceCtx s x width chars
  let tailLen := c.currentLength - c.ch1
  let cap1 : Nat :=
    if c.diff = 0 then s.charsCapacity
    else if c.newLength ≤ s.charsCapacity then s.charsCapacity
    else c.newCapacity
  let chars1 : Nat → Char := fun i =>
    if c.diff = 0 then s.chars i
    else if c.newLength ≤ s.charsCapacity then
      if c.newRhs ≤ i ∧ i < c.newRhs + tailLen then s.chars (c.ch1 + (i - c.newRhs))
      else s.chars i
    else
      if i < c.ch0 then s.chars i
      else if c.newRhs ≤ i ∧ i < c.newRhs + tailLen then s.chars (c.ch1 + (i - c.newRhs))
      else uninitChar
  let indices1 : Nat → Nat := fun j =>
    if c.diff = 0 then s.indices j
    else if c.new1 ≤ j ∧ j ≤ s.indicesCount then ((s.indices j : Int) + c.diff).toNat
    else s.indices j
  let chars2 : Nat → Char := fun i =>
    if c.ch0 ≤ i ∧ i < c.ch0 + c.leadingSpaces then ' '
    else if c.ch0 + c.leadingSpaces ≤ i ∧ i < c.ch0 + c.leadingSpaces + chars.length then
      chars.getD (i - (c.ch0 + c.leadingSpaces)) uninitChar
    else if c.ch0 + c.leadingSpaces + chars.length ≤ i ∧ i < c.ch0 + c.insertedChars then ' '
    else chars1 i
  let indices2 : Nat → Nat := fun j =>
    if c.old0 ≤ j ∧ j < c.new0 then j
    else if c.new0 ≤ j ∧ j < c.new1 then c.new0
    else if c.new1 ≤ j ∧ j < c.old1 then j
    else indices1 j
  { s with chars := chars2, charsCapacity := cap1, indices := indices2 }

/-- Modelled from the spec: `ROW::ClearCell` is declared in `Row.hpp`, which
is not part of the sources.  Per spec §4.1 the column clear "delegates to
Splice with a single-column range, one space code unit". -/
def clearCell (s : RowState) (col : Nat) : RowState :=
  Replace s col 1 [' ']

/-- `ROW::ClearColumn` (Row.cpp lines 64-68): validate the column, then clear
the cell.  The thrown `E_INVALIDARG` is modelled as `Except.error ()`; an
error result carries no row state, matching validation-before-mutation. -/
def ClearColumn (s : RowState) (col : Nat) : Except Unit RowState :=
  if s.indicesCount ≤ col then Except.error () else Except.ok (clearCell s col)

/-- Modelled from the spec: the attribute overload
`ROW::Replace(colorStarts, currentIndex, currentColor)` used by `WriteCells`
is declared in `Row.hpp`, not in the sources.  Per spec §6 the attribute run
store supports `replace(startColumn, endColumnExclusive, value)`, overwriting
the attribute over that half-open column range. -/
def attrReplace (s : RowState) (colorStarts colorEnd attrVal : Nat) : RowState :=
  { s with attr := fun col => if colorStarts ≤ col ∧ col < colorEnd then attrVal else s.attr col }

/-- Modelled from the spec: the per-cell column width.  Per spec §4.3 each
cell carries "a column width (1 for narrow, 2 for wide glyphs, 0 for a
trailing-padding placeholder)". -/
def cellWidth : DbcsKind → Nat
  | DbcsKind.single => 1
  | DbcsKind.leading => 2
  | DbcsKind.trailing => 0

/-- Modelled from the spec: the cell overload
`ROW::Replace(currentIndex, it->DbcsAttr(), it->Chars())` used by `WriteCells`
is declared in `Row.hpp`, not in the sources.  Per spec §4.3 it "Splice[s] the
cell's text/width at the current column". -/
def cellReplace (s : RowState) (col : Nat) (cell : Cell) : RowState :=
  Replace s col (cellWidth cell.dbcs) cell.chars

/-- The mutable state of the `WriteCells` loop (Row.cpp lines 87-92): the row,
the iterator, and the attribute-run accumulator `currentColor` / `colorUses` /
`colorStarts`, plus the running column `currentIndex`. -/
structure LoopState where
  row : RowState
  it : List Cell
  currentColor : Nat
  colorUses : Nat
  colorStarts : Nat
  currentIndex : Nat

/-- One iteration of the `WriteCells` loop body (Row.cpp lines 92-161), for a
non-exhausted iterator `cell :: rest`:
* lines 94-112: unless the behavior is `Current`, either extend the pending
  attribute run or commit it and start a new one;
* lines 114-157: unless the behavior is `StoredOnly`, place the text — a
  trailing half at column 0 and a leading half at the last writable column are
  padded out by clearing the cell without advancing the iterator
  (the latter also sets `doubleBytePadded`), otherwise the cell is spliced and
  the iterator advances; then apply the wrap directive if this was the last
  writable column.  A `StoredOnly` cell just advances the iterator;
* line 160: advance `currentIndex`. -/
def writeCellsBody (wrap : Option Bool) (fin : Nat) (row : RowState) (cell : Cell)
    (rest : List Cell) (currentColor colorUses colorStarts currentIndex : Nat) : LoopState :=
  let acc : RowState × Nat × Nat × Nat :=
    if cell.behavior = TextAttrBehavior.current then (row, currentColor, colorUses, colorStarts)
    else if currentColor = cell.attr then (row, currentColor, colorUses + 1, colorStarts)
    else (attrReplace row colorStarts currentIndex currentColor, cell.attr, 1, currentIndex)
  let step : RowState × List Cell :=
    if cell.behavior = TextAttrBehavior.storedOnly then (acc.1, rest)
    else
      let fillingLastColumn := currentIndex = fin
      let placed : RowState × List Cell :=
        if currentIndex = 0 ∧ cell.dbcs = DbcsKind.trailing then
          (clearCell acc.1 currentIndex, cell :: rest)
        else if fillingLastColumn ∧ cell.dbcs = DbcsKind.leading then
          ({ clearCell acc.1 currentIndex with doubleBytePadded := true }, cell :: rest)
        else (cellReplace acc.1 currentIndex cell, rest)
      let wrapped : RowState :=
        match wrap with
        | some w => if fillingLastColumn then { placed.1 with wrapForced := w } else placed.1
        | none => placed.1
      (wrapped, placed.2)
  { row := step.1, it := step.2, currentColor := acc.2.1, colorUses := acc.2.2.1
    colorStarts := acc.2.2.2, currentIndex := currentIndex + 1 }

/-- The `WriteCells` loop (Row.cpp line 92):
`while (it && currentIndex <= finalColumnInRow)`.  The loop is fuelled with
`fin + 1 - startIndex`; every iteration increments `currentIndex` by one, so
the fuel runs out exactly when `currentIndex` leaves `[startIndex, fin]`. -/
def writeCellsLoop (wrap : Option Bool) (fin : Nat) : Nat → LoopState → LoopState
  | 0, ls => ls
  | fuel + 1, ls =>
    match ls.it with
    | [] => ls
    | cell :: rest =>
      if ls.currentIndex ≤ fin then
        writeCellsLoop wrap fin fuel
          (writeCellsBody wrap fin ls.row cell rest ls.currentColor ls.colorUses
            ls.colorStarts ls.currentIndex)
      else ls

/-- `ROW::WriteCells` (Row.cpp lines 79-170).  `size()` is declared in
`Row.hpp` and modelled from the spec as the column count `indicesCount`.
Validation first (`index >= size()`, `limitRight.value_or(0) >= size()`), then
the loop, then the final commit of the pending attribute run.  The source's
line 87 `auto currentColor = it->TextAttr();` dereferences the iterator before
checking validity; on an exhausted source the C++ reads the iterator's stale
current view — modelled by the default value 0, which (as proved below) is
never committed when the source is exhausted from the start. -/
def WriteCells (s : RowState) (it : List Cell) (index : Nat) (wrap : Option Bool)
    (limitRight : Option Nat) : Except Unit (RowState × List Cell) :=
  if s.indicesCount ≤ index then Except.error ()
  else if s.indicesCount ≤ limitRight.getD 0 then Except.error ()
  else
    let fin := limitRight.getD (s.indicesCount - 1)
    let cc0 := ((it.head?).map Cell.attr).getD 0
    let ls := writeCellsLoop wrap fin (fin + 1 - index) ⟨s, it, cc0, 0, index, index⟩
    let s2 :=
      if ls.colorUses ≠ 0 then attrReplace ls.row ls.colorStarts ls.currentIndex ls.currentColor
      else ls.row
    Except.ok (s2, ls.it)

/-- Well-formedness of a row state as established by construction: the index
is non-decreasing on `[0, indicesCount]`, every proper column starts strictly
before the sentinel (every committed glyph unit has nonempty text), and the
used length fits the capacity. -/
def WellFormed (s : RowState) : Prop :=
  (∀ i j, i ≤ j → j ≤ s.indicesCount → s.indices i ≤ s.indices j) ∧
  (∀ c, c < s.indicesCount → s.indices c < s.indices s.indicesCount) ∧
  s.indices s.indicesCount ≤ s.charsCapacity

/-! ### Helper lemmas shared across the development -/

/-- A splice never touches the attribute store. -/
theorem replace_attr_eq (s : RowState) (x width : Nat) (chars : List Char) (col : Nat) :
    (Replace s x width chars).attr col = s.attr col := rfl

/-- A splice never touches the line flags. -/
theorem replace_flags_eq (s : RowState) (x width : Nat) (chars : List Char) :
    (Replace s x width chars).wrapForced = s.wrapForced ∧
    (Replace s x width chars).doubleBytePadded = s.doubleBytePadded ∧
    (Replace s x width chars).lineRendition = s.lineRendition :=
  ⟨rfl, rfl, rfl⟩

/-- The attribute-run commit never touches characters, indices or flags. -/
theorem attrReplace_frame (s : RowState) (a b v : Nat) :
    (attrReplace s a b v).chars = s.chars ∧
    (attrReplace s a b v).indices = s.indices ∧
    (attrReplace s a b v).indicesCount = s.indicesCount ∧
    (attrReplace s a b v).charsCapacity = s.charsCapacity ∧
    (attrReplace s a b v).wrapForced = s.wrapForced ∧
    (attrReplace s a b v).doubleBytePadded = s.doubleBytePadded :=
  ⟨rfl, rfl, rfl, rfl, rfl, rfl⟩

/-! ### Claim C1 -/

/-- Claim C1 (refuted; code bug).  On a fresh width-5 row, `Splice(0,1,"abc")`
reaches the state with index `[0,3,4,5,6,7]`.  For the subsequent call
`Splice(2,1,"z")` the rewritten target range `[new0,new1) = [2,3)` must, per
the claim, receive the offset `ch0 + leadingSpaces = 4 + 0 = 4`; the source's
index-rewrite loop instead stores the column number `2`. -/
theorem replace_rewrite_writes_column_numbers :
    (spliceCtx (Replace (mkRow 5 0) 0 1 ['a', 'b', 'c']) 2 1 ['z']).ch0 +
      (spliceCtx (Replace (mkRow 5 0) 0 1 ['a', 'b', 'c']) 2 1 ['z']).leadingSpaces = 4 ∧
    (Replace (Replace (mkRow 5 0) 0 1 ['a', 'b', 'c']) 2 1 ['z']).indices 2 = 2 := by
  decide

/-! ### Claim C2 -/

/-- Claim C2 (refuted; code bug).  The state reached from construction by
`Splice(0,1,"abc")` then `Splice(2,1,"z")` has index `[0,3,2,5,6,7]`: the
entry of column 1 exceeds the entry of column 2, so the column index of a
reachable state is not non-decreasing. -/
theorem replace_breaks_index_monotonicity :
    ¬ ((Replace (Replace (mkRow 5 0) 0 1 ['a', 'b', 'c']) 2 1 ['z']).indices 1 ≤
        (Replace (Replace (mkRow 5 0) 0 1 ['a', 'b', 'c']) 2 1 ['z']).indices 2) := by
  decide

/-! ### Claim C9 -/

/-- Claim C9 (refuted; code bug).  On the reachable state produced by
`Splice(0,1,"abc")` on a fresh width-5 row, applying `Splice(2,1,"z")` twice
differs from applying it once: the second application sees the corrupted
index entry written by the first and shrinks the text store, so both the
index state (entry of column 3: `3` vs `5`) and the text store contents
(position 2: `z` vs `c`) differ. -/
theorem replace_not_idempotent :
    (Replace (Replace (Replace (mkRow 5 0) 0 1 ['a', 'b', 'c']) 2 1 ['z']) 2 1 ['z']).indices 3 ≠
      (Replace (Replace (mkRow 5 0) 0 1 ['a', 'b', 'c']) 2 1 ['z']).indices 3 ∧
    (Replace (Replace (Replace (mkRow 5 0) 0 1 ['a', 'b', 'c']) 2 1 ['z']) 2 1 ['z']).chars 2 ≠
      (Replace (Replace (mkRow 5 0) 0 1 ['a', 'b', 'c']) 2 1 ['z']).chars 2 := by
  decide

/-! ### Claim C10 -/

/-- Claim C10 (confirmed).  Every `Splice` (`ROW::Replace`) call leaves the
`wrapForced` flag, the `doubleBytePadded` flag, the line rendition and the
attribute run store unchanged, for every state and every argument triple. -/
theorem replace_preserves_flags_and_attrs (s : RowState) (x width : Nat) (chars : List Char) :
    (Replace s x width chars).wrapForced = s.wrapForced ∧
    (Replace s x width chars).doubleBytePadded = s.doubleBytePadded ∧
    (Replace s x width chars).lineRendition = s.lineRendition ∧
    ∀ col, (Replace s x width chars).attr col = s.attr col :=
  ⟨rfl, rfl, rfl, fun _ => rfl⟩

/-! ### Claim C4, counterexample -/

/-- Claim C4 (counterexample).  On the reachable width-5 row holding the
1-code-unit wide glyph `W` over columns 0-1 (index `[0,0,1,2,3,4]`), the call
`Splice(0,1,"ab")` has `new1 = 1` and net delta `diff = 2`, yet the index
entry at position `new1` changes from `0` to `1` — by `1`, not by `diff` — because
the final rewrite loop overwrites the entries of `[new1, old1)` after the
shift.  (The sentinel does change by `diff`: `4` to `6`.) -/
theorem replace_index_shift_cex :
    (spliceCtx (Replace (mkRow 5 0) 0 2 ['W']) 0 1 ['a', 'b']).new1 = 1 ∧
    (spliceCtx (Replace (mkRow 5 0) 0 2 ['W']) 0 1 ['a', 'b']).diff = 2 ∧
    (Replace (mkRow 5 0) 0 2 ['W']).indices 1 = 0 ∧
    (Replace (Replace (mkRow 5 0) 0 2 ['W']) 0 1 ['a', 'b']).indices 1 = 1 ∧
    (Replace (mkRow 5 0) 0 2 ['W']).indices 5 = 4 ∧
    (Replace (Replace (mkRow 5 0) 0 2 ['W']) 0 1 ['a', 'b']).indices 5 = 6 := by
  decide

/-! ### Claim C3, counterexample -/

/-- Claim C3 (counterexample).  Writing the single cell
`(text "x", attr 1, StoredAttrOnly)` at column 0 of a fresh width-2 row with
fill attribute 0 leaves the text store untouched (column 0 still holds a
space) but commits the cell's attribute `1` to column 0 of the attribute run
store: a `StoredAttrOnly` cell participates in attribute-run accumulation,
refuting "only advances the iterator without modifying text or the attribute
store", and its text-placement step is skipped although its mode is not
`CurrentAttrOnly`. -/
theorem writeCells_storedOnly_touches_attr_cex :
    (WriteCells (mkRow 2 0) [⟨['x'], DbcsKind.single, 1, TextAttrBehavior.storedOnly⟩]
          0 none none).toOption.map
        (fun p => (p.1.attr 0, p.1.attr 1, p.1.chars 0, p.1.chars 1, p.2)) =
      some (1, 0, ' ', ' ', []) ∧
    (mkRow 2 0).attr 0 = 0 := by
  decide

/-! ### Claim C5, counterexample -/

/-- Claim C5 (counterexample).  On a fresh width-2 row with fill attribute 0,
writing `[(text "a", attr 1, CurrentAttrOnly), (text "b", attr 2, Normal)]`
at column 0 ends with attribute `1` stored at column 0: the run commit
triggered by the second cell covers the column consumed by the
`CurrentAttrOnly` cell, so its stored attribute is not kept. -/
theorem writeCells_currentAttr_overwritten_cex :
    (WriteCells (mkRow 2 0)
          [⟨['a'], DbcsKind.single, 1, TextAttrBehavior.current⟩,
            ⟨['b'], DbcsKind.single, 2, TextAttrBehavior.stored⟩] 0 none none).toOption.map
        (fun p => (p.1.attr 0, p.1.attr 1)) = some (1, 2) ∧
    (mkRow 2 0).attr 0 = 0 := by
  decide

/-- The `WriteCells` loop does nothing on an exhausted iterator. -/
theorem writeCellsLoop_nil (wrap : Option Bool) (fin fuel : Nat) (row : RowState)
    (cc cu cs ci : Nat) :
    writeCellsLoop wrap fin fuel ⟨row, [], cc, cu, cs, ci⟩ = ⟨row, [], cc, cu, cs, ci⟩ := by
  cases fuel <;> rfl

/-- The `WriteCells` loop does nothing once the column has passed the limit. -/
theorem writeCellsLoop_done (wrap : Option Bool) (fin fuel : Nat) (ls : LoopState)
    (h : fin < ls.currentIndex) : writeCellsLoop wrap fin fuel ls = ls := by
  cases fuel with
  | zero => rfl
  | succ n =>
    rw [writeCellsLoop]
    cases hit : ls.it with
    | nil => rfl
    | cons cell rest =>
      show (if ls.currentIndex ≤ fin then
          writeCellsLoop wrap fin n
            (writeCellsBody wrap fin ls.row cell rest ls.currentColor ls.colorUses
              ls.colorStarts ls.currentIndex)
        else ls) = ls
      exact if_neg (Nat.not_le.2 h)

/-! ### Claim C7 -/

/-- Claim C7 (confirmed).  `ClearColumn` fails exactly when
`column ≥ columnCount`, and `WriteCells` fails exactly when
`startColumn ≥ columnCount` or a supplied right limit is `≥ columnCount`
(the source compares `limitRight.value_or(0)`, which coincides with this
condition because a width-0 row already fails the first check).  The model
returns `Except.error ()` carrying no row state: validation happens before
any state is touched, so a failing call mutates nothing. -/
theorem validation_error_iff (s : RowState) :
    (∀ col, ClearColumn s col = Except.error () ↔ s.indicesCount ≤ col) ∧
    ∀ it idx wrap lim, (WriteCells s it idx wrap lim = Except.error () ↔
      (s.indicesCount ≤ idx ∨ ∃ l, lim = some l ∧ s.indicesCount ≤ l)) := by
  constructor
  · intro col
    by_cases h : s.indicesCount ≤ col <;> simp [ClearColumn, h]
  · intro it idx wrap lim
    cases lim with
    | none =>
      by_cases h1 : s.indicesCount ≤ idx
      · simp [WriteCells, h1]
      · have hne : ¬ s.indicesCount = 0 := by omega
        simp [WriteCells, h1, hne]
    | some l =>
      by_cases h1 : s.indicesCount ≤ idx
      · simp [WriteCells, h1]
      · by_cases h2 : s.indicesCount ≤ l
        · simp [WriteCells, h1, h2]
        · simp [WriteCells, h1, h2]

/-- The `WriteCells` loop does nothing on a state whose iterator is empty. -/
theorem writeCellsLoop_nil_state (wrap : Option Bool) (fin fuel : Nat) (ls : LoopState)
    (h : ls.it = []) : writeCellsLoop wrap fin fuel ls = ls := by
  cases fuel with
  | zero => rfl
  | succ n => rw [writeCellsLoop, h]

/-- One unfolding of the `WriteCells` loop on a live iterator within the
column limit. -/
theorem writeCellsLoop_step (wrap : Option Bool) (fin n : Nat) (ls : LoopState) (cell : Cell)
    (rest : List Cell) (hit : ls.it = cell :: rest) (hle : ls.currentIndex ≤ fin) :
    writeCellsLoop wrap fin (n + 1) ls =
      writeCellsLoop wrap fin n
        (writeCellsBody wrap fin ls.row cell rest ls.currentColor ls.colorUses
          ls.colorStarts ls.currentIndex) := by
  rw [writeCellsLoop, hit]
  exact if_pos hle

/-- The loop body leaves the iterator either advanced past the cell or parked
on it; no other iterator value is possible. -/
theorem writeCellsBody_it_cases (wrap : Option Bool) (fin : Nat) (row : RowState) (cell : Cell)
    (rest : List Cell) (cc cu cs ci : Nat) :
    (writeCellsBody wrap fin row cell rest cc cu cs ci).it = rest ∨
    (writeCellsBody wrap fin row cell rest cc cu cs ci).it = cell :: rest := by
  simp only [writeCellsBody]
  split_ifs <;> simp

/-- Effect of the loop body on a `StoredOnly` cell: the text store, the index
and the flags are untouched and the iterator advances. -/
theorem writeCellsBody_storedOnly (wrap : Option Bool) (fin : Nat) (row : RowState)
    (cell : Cell) (rest : List Cell) (cc cu cs ci : Nat)
    (hb : cell.behavior = TextAttrBehavior.storedOnly) :
    (writeCellsBody wrap fin row cell rest cc cu cs ci).row.chars = row.chars ∧
    (writeCellsBody wrap fin row cell rest cc cu cs ci).row.indices = row.indices ∧
    (writeCellsBody wrap fin row cell rest cc cu cs ci).row.wrapForced = row.wrapForced ∧
    (writeCellsBody wrap fin row cell rest cc cu cs ci).row.doubleBytePadded =
      row.doubleBytePadded ∧
    (writeCellsBody wrap fin row cell rest cc cu cs ci).it = rest ∧
    (writeCellsBody wrap fin row cell rest cc cu cs ci).currentIndex = ci + 1 := by
  have hbc : ¬ cell.behavior = TextAttrBehavior.current := by rw [hb]; simp
  simp only [writeCellsBody, if_neg hbc, if_pos hb]
  by_cases hca : cc = cell.attr <;> simp [hca, attrReplace]

/-- Effect of the loop body on a `Current` cell: the attribute store and the
whole attribute-run accumulator are untouched. -/
theorem writeCellsBody_current (wrap : Option Bool) (fin : Nat) (row : RowState)
    (cell : Cell) (rest : List Cell) (cc cu cs ci : Nat)
    (hb : cell.behavior = TextAttrBehavior.current) :
    (writeCellsBody wrap fin row cell rest cc cu cs ci).row.attr = row.attr ∧
    (writeCellsBody wrap fin row cell rest cc cu cs ci).currentColor = cc ∧
    (writeCellsBody wrap fin row cell rest cc cu cs ci).colorUses = cu ∧
    (writeCellsBody wrap fin row cell rest cc cu cs ci).colorStarts = cs ∧
    (writeCellsBody wrap fin row cell rest cc cu cs ci).currentIndex = ci + 1 := by
  have hbs : ¬ cell.behavior = TextAttrBehavior.storedOnly := by rw [hb]; simp
  refine ⟨?_, ?_, ?_, ?_, ?_⟩ <;>
    simp only [writeCellsBody, if_pos hb, if_neg hbs] <;>
    first
    | trivial
    | (cases wrap <;> split_ifs <;> rfl)

/-! ### Claim C3 -/

/-- Claim C3 (corrected).  In the per-cell loop of `WriteCells` the text
placement and attribute accumulation are gated the other way round than the
claim states: a `StoredAttrOnly` cell skips the text placement — the text
store, the index and the flags are untouched and the iterator just advances —
while a `CurrentAttrOnly` cell skips the attribute-run accumulation — the
attribute store and the whole accumulator (`currentColor`, `colorUses`,
`colorStarts`) are untouched.  (`StoredAttrOnly` cells do participate in
attribute-run accumulation; see the counterexample.) -/
theorem writeCellsBody_mode_effects (wrap : Option Bool) (fin : Nat) (row : RowState)
    (chs : List Char) (db : DbcsKind) (a : Nat) (rest : List Cell) (cc cu cs ci : Nat) :
    ((writeCellsBody wrap fin row ⟨chs, db, a, TextAttrBehavior.storedOnly⟩ rest
        cc cu cs ci).row.chars = row.chars ∧
      (writeCellsBody wrap fin row ⟨chs, db, a, TextAttrBehavior.storedOnly⟩ rest
        cc cu cs ci).row.indices = row.indices ∧
      (writeCellsBody wrap fin row ⟨chs, db, a, TextAttrBehavior.storedOnly⟩ rest
        cc cu cs ci).it = rest) ∧
    ((writeCellsBody wrap fin row ⟨chs, db, a, TextAttrBehavior.current⟩ rest
        cc cu cs ci).row.attr = row.attr ∧
      (writeCellsBody wrap fin row ⟨chs, db, a, TextAttrBehavior.current⟩ rest
        cc cu cs ci).currentColor = cc ∧
      (writeCellsBody wrap fin row ⟨chs, db, a, TextAttrBehavior.current⟩ rest
        cc cu cs ci).colorUses = cu ∧
      (writeCellsBody wrap fin row ⟨chs, db, a, TextAttrBehavior.current⟩ rest
        cc cu cs ci).colorStarts = cs) := by
  obtain ⟨a1, a2, _, _, a5, _⟩ :=
    writeCellsBody_storedOnly wrap fin row ⟨chs, db, a, TextAttrBehavior.storedOnly⟩ rest
      cc cu cs ci rfl
  obtain ⟨b1, b2, b3, b4, _⟩ :=
    writeCellsBody_current wrap fin row ⟨chs, db, a, TextAttrBehavior.current⟩ rest
      cc cu cs ci rfl
  exact ⟨⟨a1, a2, a5⟩, b1, b2, b3, b4⟩

/-! ### Claim C6 -/

/-- Claim C6 (confirmed).  If the `WriteCells` loop stands at the last
writable column `fin` and the incoming text cell is the leading half of a
wide glyph, then the loop performs the single-column space splice (ClearCell)
at that column, sets `doubleBytePadded`, does not advance the iterator, and
terminates with the column counter one past `fin`, so no further column of
the row is written. -/
theorem writeCells_wide_at_last_column (wrap : Option Bool) (fin fuel : Nat) (row : RowState)
    (cell : Cell) (rest : List Cell) (cc cu cs : Nat)
    (hl : cell.dbcs = DbcsKind.leading) (hb : cell.behavior ≠ TextAttrBehavior.storedOnly) :
    (writeCellsLoop wrap fin (fuel + 1) ⟨row, cell :: rest, cc, cu, cs, fin⟩).it =
      cell :: rest ∧
    (writeCellsLoop wrap fin (fuel + 1) ⟨row, cell :: rest, cc, cu, cs, fin⟩).currentIndex =
      fin + 1 ∧
    (writeCellsLoop wrap fin (fuel + 1)
        ⟨row, cell :: rest, cc, cu, cs, fin⟩).row.doubleBytePadded = true ∧
    (writeCellsLoop wrap fin (fuel + 1) ⟨row, cell :: rest, cc, cu, cs, fin⟩).row.chars =
      (clearCell row fin).chars ∧
    (writeCellsLoop wrap fin (fuel + 1) ⟨row, cell :: rest, cc, cu, cs, fin⟩).row.indices =
      (clearCell row fin).indices := by
  rw [writeCellsLoop_step wrap fin fuel ⟨row, cell :: rest, cc, cu, cs, fin⟩ cell rest rfl
    (Nat.le_refl fin)]
  have hci : (writeCellsBody wrap fin row cell rest cc cu cs fin).currentIndex = fin + 1 := rfl
  rw [writeCellsLoop_done wrap fin fuel
    (writeCellsBody wrap fin row cell rest cc cu cs fin) (by rw [hci]; exact Nat.lt_succ_self fin)]
  have hn1 : ¬ (fin = 0 ∧ cell.dbcs = DbcsKind.trailing) := by simp [hl]
  have hp2 : True ∧ cell.dbcs = DbcsKind.leading := ⟨trivial, hl⟩
  refine ⟨?_, ?_, ?_, ?_, ?_⟩ <;>
    simp only [writeCellsBody, if_neg hb, if_neg hn1, if_pos hp2] <;>
    first
    | rfl
    | trivial
    | (cases wrap <;> split_ifs <;> rfl)

/-- Witness for C6 at a concrete call: one wide leading cell written at the
single (hence last) column of a width-1 row is padded out. -/
theorem writeCells_wide_at_last_column_witness :
    (writeCellsLoop none 0 1
        ⟨mkRow 1 5, [⟨['W'], DbcsKind.leading, 3, TextAttrBehavior.stored⟩], 9, 0, 0,
          0⟩).it = [⟨['W'], DbcsKind.leading, 3, TextAttrBehavior.stored⟩] ∧
    (writeCellsLoop none 0 1
        ⟨mkRow 1 5, [⟨['W'], DbcsKind.leading, 3, TextAttrBehavior.stored⟩], 9, 0, 0,
          0⟩).row.doubleBytePadded = true := by
  have h := writeCells_wide_at_last_column none 0 0 (mkRow 1 5)
    ⟨['W'], DbcsKind.leading, 3, TextAttrBehavior.stored⟩ [] 9 0 0 rfl (by decide)
  exact ⟨h.1, h.2.2.1⟩

/-- Invariant of the `WriteCells` loop: when every pending cell has behavior
`Current`, the accumulator count and the attribute store never change. -/
theorem writeCellsLoop_allCurrent (wrap : Option Bool) (fin : Nat) :
    ∀ fuel ls, (∀ cl ∈ ls.it, cl.behavior = TextAttrBehavior.current) →
      (writeCellsLoop wrap fin fuel ls).colorUses = ls.colorUses ∧
      ∀ col, (writeCellsLoop wrap fin fuel ls).row.attr col = ls.row.attr col := by
  intro fuel
  induction fuel with
  | zero => exact fun ls _ => ⟨rfl, fun _ => rfl⟩
  | succ n ih =>
    intro ls h
    by_cases hle : ls.currentIndex ≤ fin
    · cases hit : ls.it with
      | nil =>
        rw [writeCellsLoop_nil_state wrap fin (n + 1) ls hit]
        exact ⟨rfl, fun _ => rfl⟩
      | cons cell rest =>
        rw [writeCellsLoop_step wrap fin n ls cell rest hit hle]
        have hcell : cell.behavior = TextAttrBehavior.current := by
          apply h
          rw [hit]
          exact List.mem_cons_self cell rest
        obtain ⟨e1, _, e3, _, _⟩ := writeCellsBody_current wrap fin ls.row cell rest
          ls.currentColor ls.colorUses ls.colorStarts ls.currentIndex hcell
        have hsub : ∀ cl ∈ (writeCellsBody wrap fin ls.row cell rest ls.currentColor
            ls.colorUses ls.colorStarts ls.currentIndex).it,
            cl.behavior = TextAttrBehavior.current := by
          rcases writeCellsBody_it_cases wrap fin ls.row cell rest ls.currentColor
            ls.colorUses ls.colorStarts ls.currentIndex with hr | hr <;>
            rw [hr] <;> intro cl hcl <;> apply h <;> rw [hit]
          · exact List.mem_cons_of_mem cell hcl
          · exact hcl
        obtain ⟨i1, i2⟩ := ih _ hsub
        refine ⟨by rw [i1, e3], fun col => ?_⟩
        rw [i2 col]
        exact congrFun e1 col
    · rw [writeCellsLoop_done wrap fin (n + 1) ls (Nat.not_le.1 hle)]
      exact ⟨rfl, fun _ => rfl⟩

/-! ### Claim C5 -/

/-- Claim C5 (corrected).  A `CurrentAttrOnly` cell itself never commits an
attribute, so a valid-argument `WriteCells` call all of whose cells have mode
`CurrentAttrOnly` leaves the stored attribute of every column unchanged.
(The original universal claim fails: the coalesced run of surrounding
non-`Current` cells may cover the column of a `CurrentAttrOnly` cell — see
the counterexample.) -/
theorem writeCells_allCurrent_preserves_attr (s : RowState) (cells : List Cell) (idx : Nat)
    (wrap : Option Bool) (lim : Option Nat) (col : Nat)
    (hall : ∀ cl ∈ cells, cl.behavior = TextAttrBehavior.current)
    (h1 : idx < s.indicesCount) (h2 : lim.getD 0 < s.indicesCount) :
    (WriteCells s cells idx wrap lim).toOption.map (fun p => p.1.attr col) =
      some (s.attr col) := by
  rw [WriteCells, if_neg (Nat.not_le.2 h1), if_neg (Nat.not_le.2 h2)]
  obtain ⟨hu, ha⟩ := writeCellsLoop_allCurrent wrap (lim.getD (s.indicesCount - 1))
    (lim.getD (s.indicesCount - 1) + 1 - idx)
    ⟨s, cells, ((cells.head?).map Cell.attr).getD 0, 0, idx, idx⟩ hall
  have hu0 : (writeCellsLoop wrap (lim.getD (s.indicesCount - 1))
      (lim.getD (s.indicesCount - 1) + 1 - idx)
      ⟨s, cells, ((cells.head?).map Cell.attr).getD 0, 0, idx, idx⟩).colorUses = 0 := hu
  simp [hu0, Except.toOption, ha col]

/-- Witness for C5 at a concrete call: a single `Current` cell written onto a
fresh width-2 row with fill attribute 5 leaves attribute 5 at column 0. -/
theorem writeCells_allCurrent_preserves_attr_witness :
    (WriteCells (mkRow 2 5) [⟨['a'], DbcsKind.single, 7, TextAttrBehavior.current⟩]
          0 none none).toOption.map (fun p => p.1.attr 0) = some 5 := by
  have h := writeCells_allCurrent_preserves_attr (mkRow 2 5)
    [⟨['a'], DbcsKind.single, 7, TextAttrBehavior.current⟩] 0 none none 0
    (by intro cl hcl; simp at hcl; rw [hcl]) (by decide) (by decide)
  simpa [mkRow] using h

/-- Correctness of the forward walk: when some in-range slot differs from
`ch0`, the walk stops at the first such slot and reports its value. -/
theorem fwdScan_found (idx : Nat → Nat) (ch0 : Nat) :
    ∀ fuel j, (∃ k, j ≤ k ∧ k < j + fuel ∧ idx k ≠ ch0) →
      (fwdScan idx ch0 fuel j).2 = idx (fwdScan idx ch0 fuel j).1 ∧
      idx (fwdScan idx ch0 fuel j).1 ≠ ch0 ∧
      j ≤ (fwdScan idx ch0 fuel j).1 ∧
      (fwdScan idx ch0 fuel j).1 < j + fuel ∧
      ∀ k, j ≤ k → k < (fwdScan idx ch0 fuel j).1 → idx k = ch0 := by
  intro fuel
  induction fuel with
  | zero =>
    intro j hex
    obtain ⟨k, hk1, hk2, _⟩ := hex
    omega
  | succ n ih =>
    intro j hex
    by_cases hj : idx j = ch0
    · have hex2 : ∃ k, j + 1 ≤ k ∧ k < (j + 1) + n ∧ idx k ≠ ch0 := by
        obtain ⟨k, hk1, hk2, hk3⟩ := hex
        refine ⟨k, ?_, by omega, hk3⟩
        rcases Nat.eq_or_lt_of_le hk1 with he | hlt
        · exact absurd (he ▸ hj) hk3
        · omega
      have hrw : fwdScan idx ch0 (n + 1) j = fwdScan idx ch0 n (j + 1) := by
        rw [fwdScan, if_pos hj]
      rw [hrw]
      obtain ⟨a1, a2, a3, a4, a5⟩ := ih (j + 1) hex2
      refine ⟨a1, a2, by omega, by omega, ?_⟩
      intro k hk1 hk2
      rcases Nat.eq_or_lt_of_le hk1 with he | hlt
      · rw [← he]; exact hj
      · exact a5 k hlt hk2
    · have hrw : fwdScan idx ch0 (n + 1) j = (j, idx j) := by
        rw [fwdScan, if_neg hj]
      rw [hrw]
      exact ⟨rfl, hj, Nat.le_refl j, by omega, fun k h1 h2 => absurd h1 (by omega)⟩

/-- Definitional relations between the quantities of `ROW::Replace`. -/
theorem spliceCtx_defs (s : RowState) (x width : Nat) (chars : List Char) :
    (spliceCtx s x width chars).insertedChars =
      chars.length + (spliceCtx s x width chars).leadingSpaces +
        (spliceCtx s x width chars).trailingSpaces ∧
    (spliceCtx s x width chars).newRhs =
      (spliceCtx s x width chars).insertedChars + (spliceCtx s x width chars).ch0 ∧
    (spliceCtx s x width chars).diff =
      ((spliceCtx s x width chars).newRhs : Int) - ((spliceCtx s x width chars).ch1 : Int) ∧
    (spliceCtx s x width chars).currentLength = s.indices s.indicesCount ∧
    (spliceCtx s x width chars).newLength =
      (((spliceCtx s x width chars).currentLength : Int) +
        (spliceCtx s x width chars).diff).toNat ∧
    (spliceCtx s x width chars).newCapacity =
      max (spliceCtx s x width chars).newLength (s.charsCapacity + s.charsCapacity / 2) :=
  ⟨rfl, rfl, rfl, rfl, rfl, rfl⟩

/-- Ordering facts about the clamped range and the expanded range of
`ROW::Replace` on a well-formed row, for an in-range start column. -/
theorem spliceCtx_spec (s : RowState) (x width : Nat) (chars : List Char)
    (hwf : WellFormed s) (hx : x < s.indicesCount) :
    (spliceCtx s x width chars).new0 ≤ (spliceCtx s x width chars).new1 ∧
    (spliceCtx s x width chars).new1 ≤ (spliceCtx s x width chars).old1 ∧
    (spliceCtx s x width chars).old1 ≤ s.indicesCount ∧
    (spliceCtx s x width chars).ch1 = s.indices ((spliceCtx s x width chars).old1) ∧
    (spliceCtx s x width chars).ch0 ≤ (spliceCtx s x width chars).ch1 ∧
    (spliceCtx s x width chars).ch1 ≤ (spliceCtx s x width chars).currentLength := by
  have e0 : (spliceCtx s x width chars).new0 = min x s.indicesCount := rfl
  have e1 : (spliceCtx s x width chars).new1 =
      min ((spliceCtx s x width chars).new0 + width) s.indicesCount := rfl
  have ech0 : (spliceCtx s x width chars).ch0 =
      s.indices ((spliceCtx s x width chars).new0) := rfl
  have eo1 : (spliceCtx s x width chars).old1 =
      (fwdScan s.indices ((spliceCtx s x width chars).ch0)
        (s.indicesCount + 1 - (spliceCtx s x width chars).new1)
        ((spliceCtx s x width chars).new1)).1 := rfl
  have ech1 : (spliceCtx s x width chars).ch1 =
      (fwdScan s.indices ((spliceCtx s x width chars).ch0)
        (s.indicesCount + 1 - (spliceCtx s x width chars).new1)
        ((spliceCtx s x width chars).new1)).2 := rfl
  have hnew0lt : (spliceCtx s x width chars).new0 < s.indicesCount := by
    rw [e0, Nat.min_eq_left (Nat.le_of_lt hx)]
    exact hx
  have hnew01 : (spliceCtx s x width chars).new0 ≤ (spliceCtx s x width chars).new1 := by
    rw [e1]
    exact Nat.le_min.2 ⟨Nat.le_add_right _ _, Nat.le_of_lt hnew0lt⟩
  have hnew1c : (spliceCtx s x width chars).new1 ≤ s.indicesCount := by
    rw [e1]
    exact Nat.min_le_right _ _
  have hex : ∃ k, (spliceCtx s x width chars).new1 ≤ k ∧
      k < (spliceCtx s x width chars).new1 +
        (s.indicesCount + 1 - (spliceCtx s x width chars).new1) ∧
      s.indices k ≠ (spliceCtx s x width chars).ch0 := by
    refine ⟨s.indicesCount, hnew1c, by omega, ?_⟩
    have h2 := hwf.2.1 _ hnew0lt
    rw [ech0]
    omega
  obtain ⟨a1, a2, a3, a4, a5⟩ := fwdScan_found s.indices ((spliceCtx s x width chars).ch0)
    (s.indicesCount + 1 - (spliceCtx s x width chars).new1)
    ((spliceCtx s x width chars).new1) hex
  rw [← eo1] at a1 a3 a4
  rw [← ech1] at a1
  have ho1c : (spliceCtx s x width chars).old1 ≤ s.indicesCount := by omega
  refine ⟨hnew01, a3, ho1c, a1, ?_, ?_⟩
  · rw [a1, ech0]
    exact hwf.1 _ _ (Nat.le_trans hnew01 a3) ho1c
  · rw [a1]
    exact hwf.1 _ _ ho1c (Nat.le_refl _)

/-- A freshly constructed row is well formed. -/
theorem mkRow_wellFormed (w f : Nat) : WellFormed (mkRow w f) :=
  ⟨fun _ _ h _ => h, fun _ h => h, Nat.le_refl w⟩

/-! ### Claim C4 -/

/-- Claim C4 (corrected).  For every `Splice` on a well-formed row with an
in-range start column and nonzero net delta `diff`: the head bytes `[0, ch0)`
are preserved, the tail bytes originally at `[ch1, currentLength)` are
preserved exactly at their shifted position `newRhs = ch1 + diff`; the
capacity is unchanged when the new length fits, and otherwise becomes exactly
`max(newLength, capacity + capacity/2)`; and every index entry at position
`old1` or beyond — including the sentinel — changes by exactly `diff`.  (The
claim's stronger assertion, that already the entries at `new1` or beyond
change by `diff`, fails: the entries of `[new1, old1)` are overwritten by the
final index-rewrite step — see the counterexample.) -/
theorem replace_shift_spec (s : RowState) (x width : Nat) (chars : List Char)
    (hwf : WellFormed s) (hx : x < s.indicesCount)
    (hd : (spliceCtx s x width chars).diff ≠ 0) :
    (∀ i, i < (spliceCtx s x width chars).ch0 →
      (Replace s x width chars).chars i = s.chars i) ∧
    (∀ i, i < (spliceCtx s x width chars).currentLength - (spliceCtx s x width chars).ch1 →
      (Replace s x width chars).chars ((spliceCtx s x width chars).newRhs + i) =
        s.chars ((spliceCtx s x width chars).ch1 + i)) ∧
    ((spliceCtx s x width chars).newLength ≤ s.charsCapacity →
      (Replace s x width chars).charsCapacity = s.charsCapacity) ∧
    (s.charsCapacity < (spliceCtx s x width chars).newLength →
      (Replace s x width chars).charsCapacity =
        max (spliceCtx s x width chars).newLength (s.charsCapacity + s.charsCapacity / 2)) ∧
    (∀ j, (spliceCtx s x width chars).old1 ≤ j → j ≤ s.indicesCount →
      ((Replace s x width chars).indices j : Int) =
        (s.indices j : Int) + (spliceCtx s x width chars).diff) := by
  obtain ⟨hn01, hn1o, ho1c, hch1eq, hch01, hch1len⟩ := spliceCtx_spec s x width chars hwf hx
  obtain ⟨d1, d2, d3, d4, d5, d6⟩ := spliceCtx_defs s x width chars
  refine ⟨?_, ?_, ?_, ?_, ?_⟩
  · intro i hi
    simp only [Replace]
    split_ifs <;> first | rfl | omega
  · intro i hi
    simp only [Replace]
    split_ifs <;> first | omega | (congr 1; omega)
  · intro hfits
    simp only [Replace]
    split_ifs <;> first | rfl | omega
  · intro hgrow
    simp only [Replace]
    split_ifs <;> first | (rw [d6]) | rfl | omega
  · intro j hj1 hj2
    have hmono : s.indices ((spliceCtx s x width chars).old1) ≤ s.indices j :=
      hwf.1 _ _ hj1 hj2
    simp only [Replace]
    split_ifs <;> omega

/-- Witness for C4 at a concrete call: splicing "ab" over column 0 of a fresh
width-2 row (a growth splice with `diff = 1`) moves the sentinel-adjacent
entry at `old1 = 1` by exactly `diff`. -/
theorem replace_shift_spec_witness :
    ((Replace (mkRow 2 0) 0 1 ['a', 'b']).indices 1 : Int) =
      ((mkRow 2 0).indices 1 : Int) + (spliceCtx (mkRow 2 0) 0 1 ['a', 'b']).diff := by
  have h := replace_shift_spec (mkRow 2 0) 0 1 ['a', 'b'] (mkRow_wellFormed 2 0)
    (by decide) (by decide)
  exact h.2.2.2.2 1 (by decide) (by decide)

/-- The column counter of the `WriteCells` loop never decreases. -/
theorem writeCellsLoop_ci_mono (wrap : Option Bool) (fin : Nat) :
    ∀ fuel ls, ls.currentIndex ≤ (writeCellsLoop wrap fin fuel ls).currentIndex := by
  intro fuel
  induction fuel with
  | zero => exact fun ls => Nat.le_refl _
  | succ n ih =>
    intro ls
    by_cases hle : ls.currentIndex ≤ fin
    · cases hit : ls.it with
      | nil =>
        rw [writeCellsLoop_nil_state wrap fin (n + 1) ls hit]
      | cons cell rest =>
        rw [writeCellsLoop_step wrap fin n ls cell rest hit hle]
        have h2 := ih (writeCellsBody wrap fin ls.row cell rest ls.currentColor ls.colorUses
          ls.colorStarts ls.currentIndex)
        have h3 : (writeCellsBody wrap fin ls.row cell rest ls.currentColor ls.colorUses
            ls.colorStarts ls.currentIndex).currentIndex = ls.currentIndex + 1 := rfl
        omega
    · rw [writeCellsLoop_done wrap fin (n + 1) ls (Nat.not_le.1 hle)]

/-- The loop body never writes an attribute at or beyond the current column:
its only attribute write is the pending-run commit over
`[colorStarts, currentIndex)`. -/
theorem writeCellsBody_attr_frame (wrap : Option Bool) (fin : Nat) (row : RowState)
    (cell : Cell) (rest : List Cell) (cc cu cs ci col : Nat) (hcol : ci ≤ col) :
    (writeCellsBody wrap fin row cell rest cc cu cs ci).row.attr col = row.attr col := by
  simp only [writeCellsBody]
  cases wrap <;> split_ifs <;>
    first
    | rfl
    | exact if_neg (by omega)

/-- Attributes of columns at or beyond the loop's final column counter are
never written by the loop. -/
theorem writeCellsLoop_attr_frame (wrap : Option Bool) (fin : Nat) :
    ∀ fuel ls col, (writeCellsLoop wrap fin fuel ls).currentIndex ≤ col →
      (writeCellsLoop wrap fin fuel ls).row.attr col = ls.row.attr col := by
  intro fuel
  induction fuel with
  | zero =>
    intro ls col _
    rfl
  | succ n ih =>
    intro ls col hcol
    by_cases hle : ls.currentIndex ≤ fin
    · cases hit : ls.it with
      | nil =>
        rw [writeCellsLoop_nil_state wrap fin (n + 1) ls hit]
      | cons cell rest =>
        rw [writeCellsLoop_step wrap fin n ls cell rest hit hle] at hcol ⊢
        have hci : ls.currentIndex ≤ col := by
          have hm := writeCellsLoop_ci_mono wrap fin n (writeCellsBody wrap fin ls.row cell
            rest ls.currentColor ls.colorUses ls.colorStarts ls.currentIndex)
          have hb : (writeCellsBody wrap fin ls.row cell rest ls.currentColor ls.colorUses
              ls.colorStarts ls.currentIndex).currentIndex = ls.currentIndex + 1 := rfl
          omega
        rw [ih _ col hcol]
        exact writeCellsBody_attr_frame wrap fin ls.row cell rest ls.currentColor
          ls.colorUses ls.colorStarts ls.currentIndex col hci
    · rw [writeCellsLoop_done wrap fin (n + 1) ls (Nat.not_le.1 hle)]

/-! ### Claim C8 -/

/-- Claim C8 (counterexample).  "Leaves the columns it did not reach
unchanged" fails: on the reachable width-3 row holding a wide glyph over
columns 0-1 (index `[0,0,1,2]`), writing the single narrow cell
`("a", attr 1, Normal)` at column 0 exhausts the source after column 0 — the
loop stops with its column counter at 1 and returns the exhausted iterator —
yet the index entry of the unreached column 1 changes from 0 to 1: the splice
of column 0 destroys the glyph and rewrites its trailing column as a
standalone space. -/
theorem writeCells_unreached_column_changed_cex :
    (writeCellsLoop none 2 3
        ⟨Replace (mkRow 3 0) 0 2 ['W'],
          [⟨['a'], DbcsKind.single, 1, TextAttrBehavior.stored⟩], 1, 0, 0,
          0⟩).currentIndex = 1 ∧
    (writeCellsLoop none 2 3
        ⟨Replace (mkRow 3 0) 0 2 ['W'],
          [⟨['a'], DbcsKind.single, 1, TextAttrBehavior.stored⟩], 1, 0, 0, 0⟩).it = [] ∧
    (Replace (mkRow 3 0) 0 2 ['W']).indices 1 = 0 ∧
    (WriteCells (Replace (mkRow 3 0) 0 2 ['W'])
          [⟨['a'], DbcsKind.single, 1, TextAttrBehavior.stored⟩] 0 none none).toOption.map
        (fun p => (p.1.indices 1, p.2)) = some (1, []) := by
  decide

/-- Claim C8 (corrected).  For a valid-argument `WriteCells` call:
* the call never fails, whatever the source;
* a source exhausted at call time leaves the entire row unchanged and is
  returned as is (the line-87 iterator dereference is modelled as a default
  attribute and is never committed, since `colorUses` stays 0);
* whenever the source becomes exhausted — at any point, any loop state —
  the loop performs no further state change and stops there, so the call
  returns exactly that exhausted iterator;
* the returned iterator is the loop's final iterator, which is empty exactly
  when exhaustion ended the loop;
* every column at or beyond the loop's stopping column keeps its stored
  attribute: the loop writes attributes only below its running column, and
  the final pending-run commit ends at the stopping column.
(The original claim's full frame over unreached columns fails — see the
counterexample — because the splice of the last consumed cell may rewrite a
later column that held a trailing part of the glyph it destroys.) -/
theorem writeCells_exhaustion_spec (s : RowState) (idx : Nat) (wrap : Option Bool)
    (lim : Option Nat) (h1 : idx < s.indicesCount) (h2 : lim.getD 0 < s.indicesCount) :
    (∀ cells, (WriteCells s cells idx wrap lim).isOk = true) ∧
    WriteCells s [] idx wrap lim = Except.ok (s, []) ∧
    (∀ fin fuel ls, LoopState.it ls = [] → writeCellsLoop wrap fin fuel ls = ls) ∧
    (∀ cells, (WriteCells s cells idx wrap lim).toOption.map (fun p => p.2) =
      some ((writeCellsLoop wrap (lim.getD (s.indicesCount - 1))
        (lim.getD (s.indicesCount - 1) + 1 - idx)
        ⟨s, cells, ((cells.head?).map Cell.attr).getD 0, 0, idx, idx⟩).it)) ∧
    (∀ cells col,
      (writeCellsLoop wrap (lim.getD (s.indicesCount - 1))
        (lim.getD (s.indicesCount - 1) + 1 - idx)
        ⟨s, cells, ((cells.head?).map Cell.attr).getD 0, 0, idx, idx⟩).currentIndex ≤ col →
      (WriteCells s cells idx wrap lim).toOption.map (fun p => p.1.attr col) =
        some (s.attr col)) := by
  refine ⟨?_, ?_, ?_, ?_, ?_⟩
  · intro cells
    rw [WriteCells, if_neg (Nat.not_le.2 h1), if_neg (Nat.not_le.2 h2)]
    rfl
  · simp [WriteCells, Nat.not_le.2 h1, Nat.not_le.2 h2, writeCellsLoop_nil]
  · intro fin fuel ls hit
    exact writeCellsLoop_nil_state wrap fin fuel ls hit
  · intro cells
    rw [WriteCells, if_neg (Nat.not_le.2 h1), if_neg (Nat.not_le.2 h2)]
    rfl
  · intro cells col hcol
    rw [WriteCells, if_neg (Nat.not_le.2 h1), if_neg (Nat.not_le.2 h2)]
    have hframe : (writeCellsLoop wrap (lim.getD (s.indicesCount - 1))
        (lim.getD (s.indicesCount - 1) + 1 - idx)
        ⟨s, cells, ((cells.head?).map Cell.attr).getD 0, 0, idx, idx⟩).row.attr col =
        s.attr col :=
      writeCellsLoop_attr_frame wrap (lim.getD (s.indicesCount - 1))
        (lim.getD (s.indicesCount - 1) + 1 - idx)
        ⟨s, cells, ((cells.head?).map Cell.attr).getD 0, 0, idx, idx⟩ col hcol
    by_cases hcu : (writeCellsLoop wrap (lim.getD (s.indicesCount - 1))
        (lim.getD (s.indicesCount - 1) + 1 - idx)
        ⟨s, cells, ((cells.head?).map Cell.attr).getD 0, 0, idx, idx⟩).colorUses = 0
    · simp [Except.toOption, hcu, hframe]
    · have hnot : ¬ ((writeCellsLoop wrap (lim.getD (s.indicesCount - 1))
          (lim.getD (s.indicesCount - 1) + 1 - idx)
          ⟨s, cells, ((cells.head?).map Cell.attr).getD 0, 0, idx, idx⟩).colorStarts ≤ col ∧
          col < (writeCellsLoop wrap (lim.getD (s.indicesCount - 1))
            (lim.getD (s.indicesCount - 1) + 1 - idx)
            ⟨s, cells, ((cells.head?).map Cell.attr).getD 0, 0, idx,
              idx⟩).currentIndex) := by
        omega
      simp [Except.toOption, hcu, attrReplace, hnot, hframe]

/-- Witness for C8 at concrete calls: an exhausted source at column 0 of a
fresh width-3 row returns the row unchanged; and a one-cell source, which
exhausts after column 0 (stopping column 1), leaves the attribute of column 2
unchanged. -/
theorem writeCells_exhaustion_spec_witness :
    WriteCells (mkRow 3 0) [] 0 none none = Except.ok (mkRow 3 0, []) ∧
    (WriteCells (mkRow 3 0) [⟨['a'], DbcsKind.single, 1, TextAttrBehavior.stored⟩]
          0 none none).toOption.map (fun p => p.1.attr 2) = some ((mkRow 3 0).attr 2) := by
  have h := writeCells_exhaustion_spec (mkRow 3 0) 0 none none (by decide) (by decide)
  exact ⟨h.2.1, h.2.2.2.2 [⟨['a'], DbcsKind.single, 1, TextAttrBehavior.stored⟩] 2 (by decide)⟩
